import Mathlib

/-!
Shallow embedding of `didtool`'s `ScoreCardTransformer`
(`src/didtool/scorecard.py`) and verification of the spec claims about it.

Conventions of the embedding:
* Python floats are modelled as exact rationals (`ℚ`); the transcendental
  `math.log2` used for the per-bin scores is modelled over `ℝ`.
* Per-bin aggregates coming from `pandas.groupby` are modelled as
  `Option ℕ`: `none` stands for the `NaN` that index alignment leaves in
  empty bins (`NaN == 0.0` is false in Python, and `some 0 ≠ none` here).
* Fallible code paths (the `ValueError` raised by `min()` on an empty
  sequence, the `NaN`-lookup failure in `transform`) are modelled with
  `Except` / `Option`.
-/

/-- Python `int(x)` on a rational: truncation toward zero. -/
def pyTrunc (q : ℚ) : ℤ := if 0 ≤ q then ⌊q⌋ else ⌈q⌉

/-- Python 3 `round(x)` on a rational: round half to even (banker's rounding). -/
def pyRound (q : ℚ) : ℤ :=
  let f := ⌊q⌋
  let r := q - (f : ℚ)
  if r < 1/2 then f
  else if 1/2 < r then f + 1
  else if f % 2 = 0 then f else f + 1

/-- Python `int(x)` on a real number: truncation toward zero. -/
noncomputable def pyTruncR (x : ℝ) : ℤ := if 0 ≤ x then ⌊x⌋ else ⌈x⌉

/-! ### List helper lemmas -/

lemma getD_set_eq (l : List ℚ) (i : ℕ) (v : ℚ) (h : i < l.length) :
    (l.set i v).getD i 0 = v := by
  induction l generalizing i with
  | nil => simp at h
  | cons a t ih =>
    cases i with
    | zero => rfl
    | succ j =>
      simp only [List.set_cons_succ, List.getD_cons_succ]
      exact ih j (by simpa using h)

lemma getD_set_ne (l : List ℚ) (i j : ℕ) (v : ℚ) (h : i ≠ j) :
    (l.set i v).getD j 0 = l.getD j 0 := by
  induction l generalizing i j with
  | nil => simp [List.set]
  | cons a t ih =>
    cases i with
    | zero =>
      cases j with
      | zero => exact absurd rfl h
      | succ j' => rfl
    | succ i' =>
      cases j with
      | zero => rfl
      | succ j' =>
        simp only [List.set_cons_succ, List.getD_cons_succ]
        exact ih i' j' (fun hh => h (by omega))

/-- First index at which `v` occurs in `l` (the length of `l` if absent);
models the positional result of pandas `argmax` / `idxmin` on a
range-indexed column. -/
def firstIdx (l : List ℚ) (v : ℚ) : ℕ :=
  match l with
  | [] => 0
  | a :: t => if a = v then 0 else firstIdx t v + 1

lemma firstIdx_lt_length_of_mem {l : List ℚ} {v : ℚ} (h : v ∈ l) :
    firstIdx l v < l.length := by
  induction l with
  | nil => simp at h
  | cons a t ih =>
    by_cases hav : a = v
    · simp [firstIdx, hav]
    · have hv : v ∈ t := by
        rcases List.mem_cons.1 h with h1 | h1
        · exact absurd h1.symm hav
        · exact h1
      simp only [firstIdx, hav, if_false, List.length_cons]
      exact Nat.succ_lt_succ (ih hv)

lemma foldl_max_mem_or (l : List ℚ) (init : ℚ) :
    l.foldl max init ∈ l ∨ l.foldl max init = init := by
  induction l generalizing init with
  | nil => exact Or.inr rfl
  | cons a t ih =>
    rcases ih (max init a) with h | h
    · exact Or.inl (List.mem_cons_of_mem _ h)
    · rcases max_choice init a with hm | hm
      · exact Or.inr (by simpa [hm] using h)
      · refine Or.inl ?_
        simp only [List.foldl_cons]
        rw [hm] at h ⊢
        rw [h]
        exact List.mem_cons_self _ _

lemma le_foldl_max (l : List ℚ) (init : ℚ) : init ≤ l.foldl max init := by
  induction l generalizing init with
  | nil => exact le_refl _
  | cons a t ih => exact le_trans (le_max_left init a) (ih (max init a))

lemma mem_le_foldl_max {l : List ℚ} {q : ℚ} (h : q ∈ l) (init : ℚ) :
    q ≤ l.foldl max init := by
  induction l generalizing init with
  | nil => simp at h
  | cons a t ih =>
    rcases List.mem_cons.1 h with h1 | h1
    · subst h1
      exact le_trans (le_max_right init q) (le_foldl_max t _)
    · exact ih h1 _

lemma foldl_min_mem (qs : List ℚ) (q : ℚ) :
    qs.foldl min q ∈ q :: qs := by
  induction qs generalizing q with
  | nil => exact List.mem_cons_self _ _
  | cons a t ih =>
    simp only [List.foldl_cons]
    rcases List.mem_cons.1 (ih (min q a)) with h | h
    · rcases min_choice q a with hm | hm
      · rw [h, hm]; exact List.mem_cons_self _ _
      · rw [h, hm]
        exact List.mem_cons_of_mem _ (List.mem_cons_self _ _)
    · exact List.mem_cons_of_mem _ (List.mem_cons_of_mem _ h)

/-! ### Binning (`__calc_bins`, lines 103-132): per-bin counts

`score_df['bin'] = prob.apply(lambda x: int(x / step))` after the optional
`prob = 1 - prob` flip; per-bin aggregates come from `groupby(bin)` and are
aligned onto the index `0 .. n_bins - 1`, so groups whose bin value falls
outside that range are dropped and empty bins hold `NaN` (here `none`). -/

/-- The probability actually binned: `1 - p` when `bad_flag` is set (line 111). -/
def flipProb (badFlag : Bool) (p : ℚ) : ℚ := if badFlag then 1 - p else p

/-- Bin id of a sample, `int(x / self._step)` with `step = 1 / n_bins` (line 112). -/
def binIdx (nBins : ℕ) (badFlag : Bool) (p : ℚ) : ℤ :=
  pyTrunc (flipProb badFlag p / (1 / (nBins : ℚ)))

/-- The samples landing in bin `i` (the `groupby` group of key `i`). -/
def rowsInBin (nBins : ℕ) (badFlag : Bool) (xs : List ℚ) (ys : List ℕ) (i : ℕ) :
    List (ℚ × ℕ) :=
  (xs.zip ys).filter (fun r => decide (binIdx nBins badFlag r.1 = (i : ℤ)))

/-- `binning_df['hits']` at index `i` (line 120): group size, `NaN` (`none`)
for empty bins since index alignment leaves those rows unset. -/
def hitsAt (nBins : ℕ) (badFlag : Bool) (xs : List ℚ) (ys : List ℕ) (i : ℕ) :
    Option ℕ :=
  let k := (rowsInBin nBins badFlag xs ys i).length
  if k = 0 then none else some k

/-- Sum of the labels of bin `i` (the `groupby(...).sum()` of lines 122-128),
`NaN` (`none`) for empty bins. -/
def labelSumAt (nBins : ℕ) (badFlag : Bool) (xs : List ℚ) (ys : List ℕ) (i : ℕ) :
    Option ℕ :=
  let rs := rowsInBin nBins badFlag xs ys i
  if rs.length = 0 then none else some ((rs.map Prod.snd).sum)

/-- `binning_df['good_hits']` per bin (lines 121-130): the label sum when
label 1 means good, `hits - bad_hits` when label 1 means bad. -/
def goodsList (nBins : ℕ) (badFlag : Bool) (xs : List ℚ) (ys : List ℕ) :
    List (Option ℕ) :=
  (List.range nBins).map (fun i =>
    match hitsAt nBins badFlag xs ys i, labelSumAt nBins badFlag xs ys i with
    | some h, some s => some (if badFlag then h - s else s)
    | _, _ => none)

/-- `binning_df['bad_hits']` per bin (lines 121-130). -/
def badsList (nBins : ℕ) (badFlag : Bool) (xs : List ℚ) (ys : List ℕ) :
    List (Option ℕ) :=
  (List.range nBins).map (fun i =>
    match hitsAt nBins badFlag xs ys i, labelSumAt nBins badFlag xs ys i with
    | some h, some s => some (if badFlag then s else h - s)
    | _, _ => none)

/-- Sum of `binning_df['hits']` over the `n_bins` rows of the binning table
(`NaN` rows contribute nothing, matching `Series.sum`). -/
def sumHits (nBins : ℕ) (badFlag : Bool) (xs : List ℚ) (ys : List ℕ) : ℕ :=
  ((List.range nBins).map
    (fun i => (rowsInBin nBins badFlag xs ys i).length)).sum

/-! ### Odds adjustment (`__adjust_odds`, lines 153-194) -/

/-- Lines 160-162: `adjusted_odds = good_hits / bad_hits` with `inf` (from
`x/0`, `x > 0`) and `NaN` (from `0/0` or empty bins) replaced by `0`.
Net effect per bin: `good / bad` when `bad` is a nonzero number, else `0`. -/
def initialAdjustedOdds (goods bads : List (Option ℕ)) : List ℚ :=
  List.zipWith
    (fun g b =>
      match g, b with
      | some g', some b' => if b' = 0 then 0 else (g' : ℚ) / (b' : ℚ)
      | _, _ => 0)
    goods bads

/-- `max(df['adjusted_odds'])` (line 163). The column entries are always
nonnegative, so folding from `0` agrees with the Python `max` on every
nonempty column. -/
def pandasMax (l : List ℚ) : ℚ := l.foldl max 0

/-- The nonzero entries of the adjusted-odds column,
`df[df['adjusted_odds'] != 0]['adjusted_odds']` (lines 165-166). -/
def nonzeroOdds (l : List ℚ) : List ℚ := l.filter (fun q => decide (q ≠ 0))

/-- `min(df[df['adjusted_odds'] != 0]['adjusted_odds'])` (line 165); the
value is only used when the filtered column is nonempty (otherwise Python's
`min` raises before this value could be read). -/
def minNonzeroOdds (l : List ℚ) : ℚ :=
  match nonzeroOdds l with
  | [] => 0
  | q :: qs => qs.foldl min q

/-- `max_odds_index` (line 164): row of the first maximal adjusted odds. -/
def maxOddsIndex (l : List ℚ) : ℕ := firstIdx l (pandasMax l)

/-- `min_odds_index` (line 166): row of the first minimal nonzero adjusted
odds. The filtered column keeps the original row order and the minimum is
nonzero, so the first occurrence in the filtered column is the first
occurrence in the full column. -/
def minOddsIndex (l : List ℚ) : ℕ := firstIdx l (minNonzeroOdds l)

/-- Lines 168-175: walk `i = min_odds_index - 1, ..., 0`; once a bin with
`good_hits == 0.0` is seen, every bin from there down gets `min_odds /= 2`.
`z` is `is_zero_good`, `m` the running `min_odds`. -/
def lowRepair (goods : List (Option ℕ)) : ℕ → Bool → ℚ → List ℚ → List ℚ
  | 0, z, m, a =>
      if z = true ∨ goods.getD 0 none = some 0 then a.set 0 (m / 2) else a
  | i' + 1, z, m, a =>
      if z = true ∨ goods.getD (i' + 1) none = some 0 then
        lowRepair goods i' true (m / 2) (a.set (i' + 1) (m / 2))
      else lowRepair goods i' z m a

/-- Lines 177-184: walk `i = max_odds_index + 1, ..., n_bins - 1`; once a bin
with `bad_hits == 0.0` is seen, every bin from there up gets `max_odds *= 2`.
`fuel` is the number of remaining iterations, `z` is `is_zero_bad`. -/
def highRepair (bads : List (Option ℕ)) : ℕ → ℕ → Bool → ℚ → List ℚ → List ℚ
  | 0, _, _, _, a => a
  | f + 1, i, z, m, a =>
      if z = true ∨ bads.getD i none = some 0 then
        highRepair bads f (i + 1) true (m * 2) (a.set i (m * 2))
      else highRepair bads f (i + 1) z m a

/-- Lines 186-193: for `i in range(min_odds_index + 1, max_odds_index - 1)`,
a zero bin becomes the mean of its neighbours when the next bin is nonzero
and otherwise carries the previous bin forward. `fuel` counts the remaining
iterations of the `range`. -/
def interiorRepair : ℕ → ℕ → List ℚ → List ℚ
  | 0, _, a => a
  | f + 1, i, a =>
      interiorRepair f (i + 1)
        (if a.getD i 0 = 0 then
          (if a.getD (i + 1) 0 ≠ 0 then
            a.set i ((a.getD (i - 1) 0 + a.getD (i + 1) 0) / 2)
          else
            a.set i (a.getD (i - 1) 0))
        else a)

/-- The adjusted-odds column after the low-end and high-end repairs but
before the interior repair (lines 160-184). -/
def afterEdgeRepairs (goods bads : List (Option ℕ)) : List ℚ :=
  let adj0 := initialAdjustedOdds goods bads
  let a1 :=
    match minOddsIndex adj0 with
    | 0 => adj0
    | l + 1 => lowRepair goods l false (minNonzeroOdds adj0) adj0
  highRepair bads (adj0.length - (maxOddsIndex adj0 + 1))
    (maxOddsIndex adj0 + 1) false (pandasMax adj0) a1

/-- `__adjust_odds` (lines 153-194). When every adjusted odds is zero the
`min()` call on the empty filtered column raises `ValueError` (modelled as
`Except.error`); otherwise the three repair passes run in order. -/
def adjustOdds (goods bads : List (Option ℕ)) : Except String (List ℚ) :=
  let adj0 := initialAdjustedOdds goods bads
  if (nonzeroOdds adj0).isEmpty then
    Except.error "min() arg is an empty sequence"
  else
    Except.ok (interiorRepair
      ((maxOddsIndex adj0 - 1) - (minOddsIndex adj0 + 1))
      (minOddsIndex adj0 + 1)
      (afterEdgeRepairs goods bads))

/-! ### Shape validation in `fit` (lines 65-70)

The code raises the 1-dim `ValueError` only when `not is_one_dim(x) and
not is_one_dim(y)`, then compares `x.shape[0]` with `y.shape[0]`. -/

/-- The validation of `fit`, as a function of the two inputs' dimensionality
and leading axis length; `some msg` models a raised `ValueError`. -/
def fitShapeCheck (xndim yndim xrows yrows : ℕ) : Option String :=
  if ¬ (xndim = 1) ∧ ¬ (yndim = 1) then
    some "x and y should be 1-dim array."
  else if ¬ (xrows = yrows) then
    some "Row size of x and y do not match."
  else none

/-! ### Scoring (`__calc_bins`, lines 135-148) and the full odds pipeline

When `bad_flag` is set, the rows are re-sorted by descending `prob_l` and
re-indexed (lines 138-142), which reverses the row order; the score column is
computed afterwards, so the scores read in ascending final `prob_l` order are
the score formula mapped over the (possibly reversed) adjusted-odds column. -/

/-- Adjusted-odds column in final row order (ascending `prob_l`): the
`__adjust_odds` output, reversed when `bad_flag` is set. -/
def finalAdjusted (nBins : ℕ) (badFlag : Bool) (xs : List ℚ) (ys : List ℕ) :
    Except String (List ℚ) :=
  (adjustOdds (goodsList nBins badFlag xs ys) (badsList nBins badFlag xs ys)).map
    (fun l => if badFlag then l.reverse else l)

/-- Per-bin score (lines 146-148):
`int(standard_score + pdo * math.log2(adjusted_odds / standard_odds))`. -/
noncomputable def scoreOfOdds (ss so pdo : ℚ) (q : ℚ) : ℤ :=
  pyTruncR ((ss : ℝ) + (pdo : ℝ) * Real.logb 2 ((q : ℝ) / (so : ℝ)))

/-- The per-bin scores produced by `fit`, in ascending final `prob_l` order. -/
noncomputable def scoresPipeline (ss so pdo : ℚ) (nBins : ℕ) (badFlag : Bool)
    (xs : List ℚ) (ys : List ℕ) : Except String (List ℤ) :=
  (finalAdjusted nBins badFlag xs ys).map (List.map (scoreOfOdds ss so pdo))

/-! ### `transform` (lines 76-97)

`data['bin'] = int((p + step/2) / step)`; the left merge against
`mapping_df` (index `0 .. n_bins`) yields `NaN` slope/intercept when the bin
id is not a valid mapping row, and `int(round(nan))` then raises — modelled
as `none`. Otherwise the result is `int(round(slope * p + intercept))`. -/

/-- The mapping-segment id of a probability (line 92). -/
def transformBin (nBins : ℕ) (p : ℚ) : ℤ :=
  pyTrunc ((p + (1 / (nBins : ℚ)) / 2) / (1 / (nBins : ℚ)))

/-- `transform` on a single probability; the mapping table is the fitted
`mapping_df` as a list of `(slope, intercept)` rows indexed `0 .. n_bins`. -/
def transformOne (nBins : ℕ) (mapping : List (ℚ × ℚ)) (p : ℚ) : Option ℤ :=
  let b := transformBin nBins p
  if b < 0 then none
  else
    match mapping.get? b.toNat with
    | some si => some (pyRound (si.1 * p + si.2))
    | none => none

/-- `transform` on a vector of probabilities (lines 90-97). -/
def transformList (nBins : ℕ) (mapping : List (ℚ × ℚ)) (xs : List ℚ) :
    List (Option ℤ) :=
  xs.map (transformOne nBins mapping)

/-! ### Structural lemmas about the repair passes -/

lemma length_lowRepair (goods : List (Option ℕ)) :
    ∀ (i : ℕ) (z : Bool) (m : ℚ) (a : List ℚ),
      (lowRepair goods i z m a).length = a.length := by
  intro i
  induction i with
  | zero =>
    intro z m a
    simp only [lowRepair]
    split <;> simp
  | succ i' ih =>
    intro z m a
    simp only [lowRepair]
    split <;> simp [ih]

lemma length_highRepair (bads : List (Option ℕ)) :
    ∀ (fuel i : ℕ) (z : Bool) (m : ℚ) (a : List ℚ),
      (highRepair bads fuel i z m a).length = a.length := by
  intro fuel
  induction fuel with
  | zero => intro i z m a; rfl
  | succ f ih =>
    intro i z m a
    simp only [highRepair]
    split <;> simp [ih]

lemma length_interiorRepair :
    ∀ (fuel i : ℕ) (a : List ℚ),
      (interiorRepair fuel i a).length = a.length := by
  intro fuel
  induction fuel with
  | zero => intro i a; rfl
  | succ f ih =>
    intro i a
    simp only [interiorRepair]
    rw [ih]
    split
    · split <;> simp
    · rfl

/-- The low-end repair only writes indices `≤ i`. -/
lemma lowRepair_getD_of_lt (goods : List (Option ℕ)) :
    ∀ (i : ℕ) (z : Bool) (m : ℚ) (a : List ℚ) (j : ℕ), i < j →
      (lowRepair goods i z m a).getD j 0 = a.getD j 0 := by
  intro i
  induction i with
  | zero =>
    intro z m a j hj
    simp only [lowRepair]
    split
    · exact getD_set_ne _ _ _ _ (by omega)
    · rfl
  | succ i' ih =>
    intro z m a j hj
    simp only [lowRepair]
    split
    · rw [ih _ _ _ j (by omega)]
      exact getD_set_ne _ _ _ _ (by omega)
    · exact ih _ _ _ j (by omega)

/-- The high-end repair only writes indices `≥ i`. -/
lemma highRepair_getD_of_lt (bads : List (Option ℕ)) :
    ∀ (fuel i : ℕ) (z : Bool) (m : ℚ) (a : List ℚ) (j : ℕ), j < i →
      (highRepair bads fuel i z m a).getD j 0 = a.getD j 0 := by
  intro fuel
  induction fuel with
  | zero => intro i z m a j hj; rfl
  | succ f ih =>
    intro i z m a j hj
    simp only [highRepair]
    split
    · rw [ih _ _ _ _ j (by omega)]
      exact getD_set_ne _ _ _ _ (by omega)
    · exact ih _ _ _ _ j (by omega)

/-- The interior repair never rewrites a cell holding a nonzero value. -/
lemma interiorRepair_getD_of_ne_zero :
    ∀ (fuel i : ℕ) (a : List ℚ) (j : ℕ), a.getD j 0 ≠ 0 →
      (interiorRepair fuel i a).getD j 0 = a.getD j 0 := by
  intro fuel
  induction fuel with
  | zero => intro i a j hj; rfl
  | succ f ih =>
    intro i a j hj
    simp only [interiorRepair]
    by_cases h0 : a.getD i 0 = 0
    · have hij : i ≠ j := fun h => hj (h ▸ h0)
      by_cases h1 : a.getD (i + 1) 0 ≠ 0
      · rw [if_pos h0, if_pos h1]
        rw [ih _ _ j (by rwa [getD_set_ne _ _ _ _ hij])]
        exact getD_set_ne _ _ _ _ hij
      · rw [if_pos h0, if_neg h1]
        rw [ih _ _ j (by rwa [getD_set_ne _ _ _ _ hij])]
        exact getD_set_ne _ _ _ _ hij
    · rw [if_neg h0]
      exact ih _ _ j hj

/-- Full characterization of the interior-repair loop over
`i, i+1, ..., i+fuel-1` (for a start index `≥ 1`, as in the code where the
start is `min_odds_index + 1`): cells outside the visited range are
untouched, and each visited cell follows the average / carry-forward rule,
reading the right neighbour's pre-loop value and the left neighbour's final
value (the loop runs left to right and writes each cell at most once). -/
lemma interiorRepair_spec :
    ∀ (fuel i : ℕ) (a : List ℚ), 1 ≤ i → i + fuel ≤ a.length →
      ((∀ j, j < i ∨ i + fuel ≤ j →
        (interiorRepair fuel i a).getD j 0 = a.getD j 0) ∧
       (∀ k, i ≤ k → k < i + fuel →
        (interiorRepair fuel i a).getD k 0 =
          if a.getD k 0 = 0 then
            if a.getD (k + 1) 0 ≠ 0 then
              ((interiorRepair fuel i a).getD (k - 1) 0 + a.getD (k + 1) 0) / 2
            else (interiorRepair fuel i a).getD (k - 1) 0
          else a.getD k 0)) := by
  intro fuel
  induction fuel with
  | zero =>
    intro i a hi hlen
    refine ⟨fun j _ => rfl, fun k hk1 hk2 => absurd (hk1.trans_lt hk2) (by omega)⟩
  | succ f ih =>
    intro i a hi hlen
    have hil : i < a.length := by omega
    simp only [interiorRepair]
    set a' : List ℚ :=
      (if a.getD i 0 = 0 then
        (if a.getD (i + 1) 0 ≠ 0 then
          a.set i ((a.getD (i - 1) 0 + a.getD (i + 1) 0) / 2)
        else
          a.set i (a.getD (i - 1) 0))
      else a) with ha'
    have ha'len : a'.length = a.length := by
      rw [ha']
      split
      · split <;> simp
      · rfl
    have ha'ne : ∀ j, j ≠ i → a'.getD j 0 = a.getD j 0 := by
      intro j hj
      rw [ha']
      split
      · split <;> exact getD_set_ne _ _ _ _ (fun h => hj h.symm)
      · rfl
    have ha'i : a'.getD i 0 =
        if a.getD i 0 = 0 then
          if a.getD (i + 1) 0 ≠ 0 then
            (a.getD (i - 1) 0 + a.getD (i + 1) 0) / 2
          else a.getD (i - 1) 0
        else a.getD i 0 := by
      rw [ha']
      by_cases h0 : a.getD i 0 = 0
      · by_cases h1 : a.getD (i + 1) 0 ≠ 0
        · rw [if_pos h0, if_pos h1, if_pos h0, if_pos h1]
          exact getD_set_eq _ _ _ hil
        · rw [if_pos h0, if_neg h1, if_pos h0, if_neg h1]
          exact getD_set_eq _ _ _ hil
      · rw [if_neg h0, if_neg h0]
    obtain ⟨ih1, ih2⟩ := ih (i + 1) a' (by omega) (by omega)
    have hout : ∀ j, j < i ∨ i + (f + 1) ≤ j →
        (interiorRepair f (i + 1) a').getD j 0 = a.getD j 0 := by
      intro j hj
      rw [ih1 j (by omega), ha'ne j (by omega)]
    refine ⟨hout, ?_⟩
    intro k hk1 hk2
    rcases Nat.eq_or_lt_of_le hk1 with hk | hk
    · subst hk
      have hprev : (interiorRepair f (i + 1) a').getD (i - 1) 0 =
          a.getD (i - 1) 0 := hout (i - 1) (by omega)
      have hcur : (interiorRepair f (i + 1) a').getD i 0 = a'.getD i 0 :=
        ih1 i (by omega)
      rw [hcur, ha'i, hprev]
    · have hk' : i + 1 ≤ k := hk
      have := ih2 k hk' (by omega)
      rw [this, ha'ne k (by omega), ha'ne (k + 1) (by omega)]

/-! ### Index bounds for `min_odds_index` / `max_odds_index` -/

lemma initialAdjustedOdds_nonneg :
    ∀ (goods bads : List (Option ℕ)) (q : ℚ),
      q ∈ initialAdjustedOdds goods bads → 0 ≤ q := by
  intro goods
  induction goods with
  | nil => intro bads q hq; simp [initialAdjustedOdds] at hq
  | cons g gt ih =>
    intro bads q hq
    cases bads with
    | nil => simp [initialAdjustedOdds] at hq
    | cons b bt =>
      simp only [initialAdjustedOdds, List.zipWith_cons_cons] at hq
      rcases List.mem_cons.1 hq with h | h
      · subst h
        cases g with
        | none => cases b <;> simp
        | some g' =>
          cases b with
          | none => simp
          | some b' =>
            by_cases hb : b' = 0
            · simp [hb]
            · simp only [hb, if_false]
              positivity
      · exact ih bt q h

lemma pandasMax_mem {l : List ℚ} (hne : l ≠ []) (hnn : ∀ q ∈ l, 0 ≤ q) :
    pandasMax l ∈ l := by
  rcases foldl_max_mem_or l 0 with h | h
  · exact h
  · obtain ⟨a, t, rfl⟩ := List.exists_cons_of_ne_nil hne
    have h1 : a ≤ pandasMax (a :: t) :=
      mem_le_foldl_max (List.mem_cons_self _ _) 0
    have h2 : 0 ≤ a := hnn a (List.mem_cons_self _ _)
    have hp : pandasMax (a :: t) = 0 := h
    have h3 : a = 0 := le_antisymm (hp ▸ h1) h2
    rw [hp, ← h3]
    exact List.mem_cons_self _ _

lemma minNonzeroOdds_mem {l : List ℚ} (hne : nonzeroOdds l ≠ []) :
    minNonzeroOdds l ∈ l := by
  unfold minNonzeroOdds
  cases hm : nonzeroOdds l with
  | nil => exact absurd hm hne
  | cons q qs =>
    have h1 : qs.foldl min q ∈ q :: qs := foldl_min_mem qs q
    rw [← hm] at h1
    exact List.mem_of_mem_filter h1

lemma maxOddsIndex_lt_length {goods bads : List (Option ℕ)}
    (hne : nonzeroOdds (initialAdjustedOdds goods bads) ≠ []) :
    maxOddsIndex (initialAdjustedOdds goods bads) <
      (initialAdjustedOdds goods bads).length := by
  apply firstIdx_lt_length_of_mem
  apply pandasMax_mem
  · intro h
    apply hne
    rw [nonzeroOdds, h, List.filter_nil]
  · exact fun q hq => initialAdjustedOdds_nonneg goods bads q hq

lemma minOddsIndex_lt_length {l : List ℚ} (hne : nonzeroOdds l ≠ []) :
    minOddsIndex l < l.length :=
  firstIdx_lt_length_of_mem (minNonzeroOdds_mem hne)

lemma length_afterEdgeRepairs (goods bads : List (Option ℕ)) :
    (afterEdgeRepairs goods bads).length =
      (initialAdjustedOdds goods bads).length := by
  unfold afterEdgeRepairs
  rw [length_highRepair]
  cases h : minOddsIndex (initialAdjustedOdds goods bads) with
  | zero => rfl
  | succ l => exact length_lowRepair goods l false _ _

/-- When `adjust` succeeds, its output is the interior repair applied to the
edge-repaired column, and the filtered column was nonempty. -/
lemma adjustOdds_ok_elim {goods bads : List (Option ℕ)} {out : List ℚ}
    (h : adjustOdds goods bads = Except.ok out) :
    nonzeroOdds (initialAdjustedOdds goods bads) ≠ [] ∧
    out = interiorRepair
      ((maxOddsIndex (initialAdjustedOdds goods bads) - 1) -
        (minOddsIndex (initialAdjustedOdds goods bads) + 1))
      (minOddsIndex (initialAdjustedOdds goods bads) + 1)
      (afterEdgeRepairs goods bads) := by
  unfold adjustOdds at h
  by_cases hne : (nonzeroOdds (initialAdjustedOdds goods bads)).isEmpty
  · rw [if_pos hne] at h
    exact absurd h (by simp)
  · rw [if_neg hne] at h
    refine ⟨fun hc => hne (by rw [hc]; rfl), ?_⟩
    exact (Except.ok.injEq _ _ ▸ h).symm

lemma initialAdjustedOdds_getD :
    ∀ (goods bads : List (Option ℕ)) (i : ℕ) (g b : ℕ),
      goods.getD i none = some g → bads.getD i none = some b →
      (initialAdjustedOdds goods bads).getD i 0 =
        if b = 0 then 0 else (g : ℚ) / (b : ℚ) := by
  intro goods
  induction goods with
  | nil => intro bads i g b hg hb; simp at hg
  | cons g0 gt ih =>
    intro bads i g b hg hb
    cases bads with
    | nil => simp at hb
    | cons b0 bt =>
      cases i with
      | zero =>
        simp only [List.getD_cons_zero] at hg hb
        subst hg; subst hb
        rfl
      | succ i' =>
        simp only [List.getD_cons_succ] at hg hb
        simp only [initialAdjustedOdds, List.zipWith_cons_cons,
          List.getD_cons_succ]
        exact ih bt i' g b hg hb

lemma getD_some_imp_lt {l : List (Option ℕ)} {i : ℕ} {v : ℕ}
    (h : l.getD i none = some v) : i < l.length := by
  by_contra hc
  rw [List.getD_eq_default _ _ (by omega)] at h
  exact Option.noConfusion h

/-! ### Facts about `pyTruncR` -/

lemma pyTruncR_of_nonneg {x : ℝ} (h : 0 ≤ x) : pyTruncR x = ⌊x⌋ :=
  if_pos h

lemma pyTruncR_mono {x y : ℝ} (h : x ≤ y) : pyTruncR x ≤ pyTruncR y := by
  unfold pyTruncR
  by_cases hx : 0 ≤ x
  · rw [if_pos hx, if_pos (le_trans hx h)]
    exact Int.floor_le_floor h
  · by_cases hy : 0 ≤ y
    · rw [if_neg hx, if_pos hy]
      have h1 : ⌈x⌉ ≤ 0 := Int.ceil_le.mpr (by simpa using le_of_not_le hx)
      exact le_trans h1 (Int.floor_nonneg.mpr hy)
    · rw [if_neg hx, if_neg hy]
      exact Int.ceil_le_ceil h

/-! ### Facts about `transform` -/

lemma get?_eq_some_getD (l : List (ℚ × ℚ)) :
    ∀ (n : ℕ), n < l.length → l.get? n = some (l.getD n (0, 0)) := by
  induction l with
  | nil => intro n hn; simp at hn
  | cons a t ih =>
    intro n hn
    cases n with
    | zero => rfl
    | succ n' =>
      simp only [List.get?_cons_succ, List.getD_cons_succ]
      exact ih n' (by simpa using hn)

lemma transform_arg_eq {nb : ℕ} (hnb : 1 ≤ nb) (p : ℚ) :
    (p + (1 / (nb : ℚ)) / 2) / (1 / (nb : ℚ)) = p * nb + 1 / 2 := by
  have h0 : (nb : ℚ) ≠ 0 := by
    have : (1 : ℚ) ≤ (nb : ℚ) := by exact_mod_cast hnb
    linarith
  field_simp
  ring

lemma transformBin_eq_floor {nb : ℕ} (hnb : 1 ≤ nb) {p : ℚ} (hp0 : 0 ≤ p) :
    transformBin nb p = ⌊(p + (1 / (nb : ℚ)) / 2) / (1 / (nb : ℚ))⌋ := by
  unfold transformBin pyTrunc
  rw [if_pos]
  rw [transform_arg_eq hnb]
  have : (0 : ℚ) ≤ (nb : ℚ) := by positivity
  positivity

lemma transformBin_nonneg {nb : ℕ} (hnb : 1 ≤ nb) {p : ℚ} (hp0 : 0 ≤ p) :
    0 ≤ transformBin nb p := by
  rw [transformBin_eq_floor hnb hp0, transform_arg_eq hnb]
  apply Int.floor_nonneg.mpr
  have : (0 : ℚ) ≤ (nb : ℚ) := by positivity
  positivity

lemma transformBin_toNat_lt {nb : ℕ} (hnb : 1 ≤ nb) {p : ℚ} (hp0 : 0 ≤ p)
    (hp1 : p < 1) : (transformBin nb p).toNat < nb + 1 := by
  have hfl : transformBin nb p = ⌊(p + (1 / (nb : ℚ)) / 2) / (1 / (nb : ℚ))⌋ :=
    transformBin_eq_floor hnb hp0
  have hnbQ : (0 : ℚ) < (nb : ℚ) := by
    have : (1 : ℚ) ≤ (nb : ℚ) := by exact_mod_cast hnb
    linarith
  have harg : (p + (1 / (nb : ℚ)) / 2) / (1 / (nb : ℚ)) < (nb : ℚ) + 1 := by
    rw [transform_arg_eq hnb]
    have : p * (nb : ℚ) < 1 * (nb : ℚ) :=
      mul_lt_mul_of_pos_right hp1 hnbQ
    linarith
  have hlt : transformBin nb p < (nb : ℤ) + 1 := by
    rw [hfl]
    apply Int.floor_lt.mpr
    push_cast
    exact harg
  omega

/-- On a fitted mapping table (`n_bins + 1` rows) and a probability in
`[0, 1)`, `transform` computes segment `⌊(p + step/2) / step⌋` and returns
`round(slope * p + intercept)`. -/
lemma transformOne_eq_formula {nb : ℕ} {mapping : List (ℚ × ℚ)} {p : ℚ}
    (hnb : 1 ≤ nb) (hm : mapping.length = nb + 1) (hp0 : 0 ≤ p) (hp1 : p < 1) :
    transformOne nb mapping p =
      some (pyRound
        ((mapping.getD (⌊(p + (1 / (nb : ℚ)) / 2) / (1 / (nb : ℚ))⌋).toNat
            (0, 0)).1 * p +
         (mapping.getD (⌊(p + (1 / (nb : ℚ)) / 2) / (1 / (nb : ℚ))⌋).toNat
            (0, 0)).2)) := by
  have hnn := transformBin_nonneg hnb hp0
  have hlt : (transformBin nb p).toNat < mapping.length := by
    rw [hm]
    exact transformBin_toNat_lt hnb hp0 hp1
  unfold transformOne
  rw [if_neg (not_lt.mpr hnn)]
  rw [get?_eq_some_getD mapping _ hlt]
  rw [transformBin_eq_floor hnb hp0]

/-! ### Evaluation facts about `log2` -/

lemma logb_two_two : Real.logb 2 2 = 1 := Real.logb_self_eq_one one_lt_two

lemma logb_two_four : Real.logb 2 4 = 2 := by
  have h : (4 : ℝ) = 2 ^ (2 : ℕ) := by norm_num
  rw [h, Real.logb_pow, logb_two_two]
  norm_num

lemma logb_two_eight : Real.logb 2 8 = 3 := by
  have h : (8 : ℝ) = 2 ^ (3 : ℕ) := by norm_num
  rw [h, Real.logb_pow, logb_two_two]
  norm_num

lemma logb_three_halves_nonneg : 0 ≤ Real.logb 2 (3 / 2) :=
  Real.logb_nonneg one_lt_two (by norm_num)

lemma logb_three_halves_lt_one : Real.logb 2 (3 / 2) < 1 := by
  rw [Real.logb_lt_iff_lt_rpow one_lt_two (by norm_num : (0 : ℝ) < 3 / 2)]
  rw [Real.rpow_one]
  norm_num

lemma half_le_logb_three_halves : (1 : ℝ) / 2 ≤ Real.logb 2 (3 / 2) := by
  rw [Real.le_logb_iff_rpow_le one_lt_two (by norm_num : (0 : ℝ) < 3 / 2)]
  have h : (2 : ℝ) ^ ((1 : ℝ) / 2) = Real.sqrt 2 := (Real.sqrt_eq_rpow 2).symm
  rw [h]
  nlinarith [Real.sq_sqrt (show (0 : ℝ) ≤ 2 by norm_num), Real.sqrt_nonneg 2]

/-- The score formula is monotone in the odds (for positive odds, positive
`standard_odds` and nonnegative `pdo`). -/
lemma scoreOfOdds_mono {ss so pdo q1 q2 : ℚ} (hso : 0 < so) (hpdo : 0 ≤ pdo)
    (h1 : 0 < q1) (hle : q1 ≤ q2) :
    scoreOfOdds ss so pdo q1 ≤ scoreOfOdds ss so pdo q2 := by
  unfold scoreOfOdds
  apply pyTruncR_mono
  apply add_le_add_left
  have hsoR : (0 : ℝ) < (so : ℝ) := by exact_mod_cast hso
  have h1R : (0 : ℝ) < (q1 : ℝ) := by exact_mod_cast h1
  have hleR : (q1 : ℝ) ≤ (q2 : ℝ) := by exact_mod_cast hle
  apply mul_le_mul_of_nonneg_left _ (by exact_mod_cast hpdo)
  apply Real.logb_le_logb_of_le one_lt_two (div_pos h1R hsoR)
  exact div_le_div_of_nonneg_right hleR hsoR.le

/-! ### The claims -/

/-- Claim C10: `__adjust_odds` preserves well-defined empirical odds — for
every bin index `i` with `L ≤ i ≤ M` (`L` the index of the minimum nonzero
adjusted odds, `M` of the maximum) whose raw odds is finite and nonzero
(`good_hits > 0` and `bad_hits > 0`), the adjusted odds after `adjust`
equals the raw odds `good_hits / bad_hits`: the low-end repair writes only
indices `< L`, the high-end repair only indices `> M`, and the interior
repair only cells currently holding `0`. -/
theorem claim_c10_odds_preserved_between_min_and_max
    (goods bads : List (Option ℕ)) (g b i : ℕ) (out : List ℚ)
    (hg : goods.getD i none = some g) (hb : bads.getD i none = some b)
    (hgpos : 0 < g) (hbpos : 0 < b)
    (hL : minOddsIndex (initialAdjustedOdds goods bads) ≤ i)
    (hM : i ≤ maxOddsIndex (initialAdjustedOdds goods bads))
    (hout : adjustOdds goods bads = Except.ok out) :
    out.getD i 0 = (g : ℚ) / (b : ℚ) := by
  obtain ⟨hne, hdef⟩ := adjustOdds_ok_elim hout
  have hadj : (initialAdjustedOdds goods bads).getD i 0 = (g : ℚ) / (b : ℚ) := by
    rw [initialAdjustedOdds_getD goods bads i g b hg hb, if_neg (by omega)]
  have hpos : (0 : ℚ) < (g : ℚ) / (b : ℚ) :=
    div_pos (by exact_mod_cast hgpos) (by exact_mod_cast hbpos)
  have hne0 : (initialAdjustedOdds goods bads).getD i 0 ≠ 0 := by
    rw [hadj]
    exact ne_of_gt hpos
  have hA : (afterEdgeRepairs goods bads).getD i 0 =
      (initialAdjustedOdds goods bads).getD i 0 := by
    simp only [afterEdgeRepairs]
    rw [highRepair_getD_of_lt bads _ _ _ _ _ i (by omega)]
    split
    · rfl
    · rename_i l hl
      exact lowRepair_getD_of_lt goods l false _ _ i (by omega)
  rw [hdef, interiorRepair_getD_of_ne_zero _ _ _ i (by rw [hA]; exact hne0),
    hA, hadj]

/-- Witness for C10 at a concrete fit: two bins with raw odds `1` and `2`,
`L = 0`, `M = 1`; the bin at index `1` keeps its raw odds `2/1`. -/
theorem claim_c10_witness :
    ([1, 2] : List ℚ).getD 1 0 = ((2 : ℕ) : ℚ) / ((1 : ℕ) : ℚ) :=
  claim_c10_odds_preserved_between_min_and_max
    [some 1, some 2] [some 1, some 1] 2 1 1 [1, 2]
    (by decide) (by decide) (by decide) (by decide)
    (by norm_num [minOddsIndex, minNonzeroOdds, nonzeroOdds,
      initialAdjustedOdds, firstIdx])
    (by norm_num [maxOddsIndex, pandasMax, initialAdjustedOdds, firstIdx])
    (by norm_num [adjustOdds, initialAdjustedOdds, nonzeroOdds, minOddsIndex,
      minNonzeroOdds, maxOddsIndex, pandasMax, firstIdx, afterEdgeRepairs,
      highRepair, interiorRepair, lowRepair])

/-- Claim C1 (code bug): the spec demands that after `__adjust_odds` every
bin's adjusted odds is strictly positive and finite, including the bin at
index `M - 1`. On bins with raw odds `1, 2, 0, 4` (good hits `1, 2, 0, 4`,
bad hits all `1`), `M = 3` and the interior loop `range(L + 1, M - 1)` skips
index `2 = M - 1`, so its adjusted odds stays `0`; the subsequent
`math.log2(0)` in `__calc_bins` (line 148) would then raise. -/
theorem claim_c1_zero_odds_survive_adjust :
    adjustOdds [some 1, some 2, some 0, some 4]
        [some 1, some 1, some 1, some 1] = Except.ok [1, 2, 0, 4] ∧
    maxOddsIndex (initialAdjustedOdds [some 1, some 2, some 0, some 4]
        [some 1, some 1, some 1, some 1]) = 3 ∧
    ([1, 2, 0, 4] : List ℚ).getD 2 0 = 0 := by
  refine ⟨?_, ?_, by norm_num⟩
  · norm_num [adjustOdds, initialAdjustedOdds, nonzeroOdds, minOddsIndex,
      minNonzeroOdds, maxOddsIndex, pandasMax, firstIdx, afterEdgeRepairs,
      highRepair, interiorRepair, lowRepair]
  · norm_num [maxOddsIndex, pandasMax, initialAdjustedOdds, firstIdx]

/-- Counterexample to claim C2: on bins with raw odds `1, 3, 0, 8`
(`L = 0`, `M = 3`), index `2` is strictly between `L` and `M` and has
adjusted odds `0`, with a nonzero next bin (`8`), so the claimed repair
would assign `(3 + 8) / 2 = 11/2` — but the loop `range(L + 1, M - 1)`
never visits index `2` and the zero survives. -/
theorem claim_c2_counterexample :
    adjustOdds [some 1, some 3, some 0, some 8]
        [some 1, some 1, some 2, some 1] = Except.ok [1, 3, 0, 8] ∧
    minOddsIndex (initialAdjustedOdds [some 1, some 3, some 0, some 8]
        [some 1, some 1, some 2, some 1]) = 0 ∧
    maxOddsIndex (initialAdjustedOdds [some 1, some 3, some 0, some 8]
        [some 1, some 1, some 2, some 1]) = 3 := by
  refine ⟨?_, ?_, ?_⟩
  · norm_num [adjustOdds, initialAdjustedOdds, nonzeroOdds, minOddsIndex,
      minNonzeroOdds, maxOddsIndex, pandasMax, firstIdx, afterEdgeRepairs,
      highRepair, interiorRepair, lowRepair]
  · norm_num [minOddsIndex, minNonzeroOdds, nonzeroOdds,
      initialAdjustedOdds, firstIdx]
  · norm_num [maxOddsIndex, pandasMax, initialAdjustedOdds, firstIdx]

/-- Claim C2 (amended): the interior repair of `__adjust_odds` covers
exactly the indices `i` with `L + 1 ≤ i ≤ M - 2` (not all indices strictly
between `L` and `M`: the bin at `M - 1` is left untouched). On each covered
index holding `0` it assigns the average of the previous bin's (already
repaired) value and the next bin's pre-loop value when the latter is
nonzero, and otherwise carries the previous bin's value forward. -/
theorem claim_c2_amended_interior_rule
    (goods bads : List (Option ℕ)) (out : List ℚ)
    (hout : adjustOdds goods bads = Except.ok out) :
    (∀ i, minOddsIndex (initialAdjustedOdds goods bads) + 1 ≤ i →
      i + 1 < maxOddsIndex (initialAdjustedOdds goods bads) →
      out.getD i 0 =
        if (afterEdgeRepairs goods bads).getD i 0 = 0 then
          if (afterEdgeRepairs goods bads).getD (i + 1) 0 ≠ 0 then
            (out.getD (i - 1) 0 +
              (afterEdgeRepairs goods bads).getD (i + 1) 0) / 2
          else out.getD (i - 1) 0
        else (afterEdgeRepairs goods bads).getD i 0) ∧
    (∀ j, j ≤ minOddsIndex (initialAdjustedOdds goods bads) ∨
        maxOddsIndex (initialAdjustedOdds goods bads) - 1 ≤ j →
      out.getD j 0 = (afterEdgeRepairs goods bads).getD j 0) := by
  obtain ⟨hne, hdef⟩ := adjustOdds_ok_elim hout
  have hlen2 : (afterEdgeRepairs goods bads).length =
      (initialAdjustedOdds goods bads).length :=
    length_afterEdgeRepairs goods bads
  by_cases hc : (maxOddsIndex (initialAdjustedOdds goods bads) - 1) -
      (minOddsIndex (initialAdjustedOdds goods bads) + 1) = 0
  · have hout0 : out = afterEdgeRepairs goods bads := by
      rw [hdef, hc]
      rfl
    constructor
    · intro i h1 h2
      exfalso
      omega
    · intro j hj
      rw [hout0]
  · have hM : maxOddsIndex (initialAdjustedOdds goods bads) <
        (initialAdjustedOdds goods bads).length := maxOddsIndex_lt_length hne
    obtain ⟨hs1, hs2⟩ := interiorRepair_spec
      ((maxOddsIndex (initialAdjustedOdds goods bads) - 1) -
        (minOddsIndex (initialAdjustedOdds goods bads) + 1))
      (minOddsIndex (initialAdjustedOdds goods bads) + 1)
      (afterEdgeRepairs goods bads) (by omega) (by omega)
    rw [hdef]
    constructor
    · intro i h1 h2
      exact hs2 i h1 (by omega)
    · intro j hj
      exact hs1 j (by omega)

/-- Witness for the amended C2 at a concrete run: raw odds `1, 0, 4, 8`
(`L = 0`, `M = 3`); the interior loop visits exactly index `1`, finds `0`
with nonzero next bin `4`, and assigns `(1 + 4) / 2 = 5/2`. -/
theorem claim_c2_witness :
    ([1, 5/2, 4, 8] : List ℚ).getD 1 0 =
      if (afterEdgeRepairs [some 1, some 0, some 4, some 8]
          [some 1, some 1, some 1, some 1]).getD 1 0 = 0 then
        if (afterEdgeRepairs [some 1, some 0, some 4, some 8]
            [some 1, some 1, some 1, some 1]).getD 2 0 ≠ 0 then
          (([1, 5/2, 4, 8] : List ℚ).getD 0 0 +
            (afterEdgeRepairs [some 1, some 0, some 4, some 8]
              [some 1, some 1, some 1, some 1]).getD 2 0) / 2
        else ([1, 5/2, 4, 8] : List ℚ).getD 0 0
      else (afterEdgeRepairs [some 1, some 0, some 4, some 8]
          [some 1, some 1, some 1, some 1]).getD 1 0 :=
  (claim_c2_amended_interior_rule [some 1, some 0, some 4, some 8]
    [some 1, some 1, some 1, some 1] [1, 5/2, 4, 8]
    (by norm_num [adjustOdds, initialAdjustedOdds, nonzeroOdds, minOddsIndex,
      minNonzeroOdds, maxOddsIndex, pandasMax, firstIdx, afterEdgeRepairs,
      highRepair, interiorRepair, lowRepair])).1 1
    (by norm_num [minOddsIndex, minNonzeroOdds, nonzeroOdds,
      initialAdjustedOdds, firstIdx])
    (by norm_num [maxOddsIndex, pandasMax, initialAdjustedOdds, firstIdx])

/-- Claim C3 (code bug): the spec says `fit` raises a shape `ValueError`
whenever either input is not one-dimensional, but line 65 tests
`not is_one_dim(x) and not is_one_dim(y)`, so with a 2-d `x` (and 1-d `y`
of matching leading length) no `ValueError` is raised: the validation
returns no error. -/
theorem claim_c3_single_bad_dim_not_caught :
    fitShapeCheck 2 1 5 5 = none := by
  rfl

/-- Claim C4 (code bug): with `bad_flag = True` a sample with probability
`0.0` has flipped probability `1.0` and lands in bin `int(1/step) = n_bins`,
one past the binning table, where index alignment drops it instead of
clamping it into the last bin: with `n_bins = 2` and samples at `0` and
`3/4`, the hits over all bins sum to `1` while there are `2` samples. -/
theorem claim_c4_unit_probability_dropped :
    binIdx 2 true 0 = 2 ∧
    sumHits 2 true [0, 3/4] [1, 0] = 1 ∧
    ([(0 : ℚ), 3/4] : List ℚ).length = 2 := by
  refine ⟨?_, ?_, by norm_num⟩
  · norm_num [binIdx, flipProb, pyTrunc]
  · norm_num [sumHits, rowsInBin, binIdx, flipProb, pyTrunc, List.range_succ]

/-- Claim C9: when every bin's odds is zero or undefined (for instance when
no bin has both positive good hits and positive bad hits), the filtered
column `df[df['adjusted_odds'] != 0]` is empty and the `min()` call on line
165 raises a `ValueError` which propagates out of `fit`: the pipeline
reports an error instead of producing a mapping. -/
theorem claim_c9_all_degenerate_odds_error (ss so pdo : ℚ) (nBins : ℕ)
    (badFlag : Bool) (xs : List ℚ) (ys : List ℕ)
    (h : ∀ q ∈ initialAdjustedOdds (goodsList nBins badFlag xs ys)
      (badsList nBins badFlag xs ys), q = 0) :
    scoresPipeline ss so pdo nBins badFlag xs ys =
      Except.error "min() arg is an empty sequence" := by
  have hz : nonzeroOdds (initialAdjustedOdds (goodsList nBins badFlag xs ys)
      (badsList nBins badFlag xs ys)) = [] := by
    apply List.filter_eq_nil_iff.mpr
    intro q hq
    simp [h q hq]
  simp only [scoresPipeline, finalAdjusted, adjustOdds, hz]
  rfl

/-- Witness for C9: two samples both labelled `1` with `bad_flag = False`
give two bins with zero bad hits (undefined odds); `fit` errors out. -/
theorem claim_c9_witness :
    scoresPipeline 500 (1/100) 20 2 false [1/4, 3/4] [1, 1] =
      Except.error "min() arg is an empty sequence" :=
  claim_c9_all_degenerate_odds_error 500 (1/100) 20 2 false [1/4, 3/4] [1, 1]
    (by norm_num [initialAdjustedOdds, goodsList, badsList, hitsAt,
      labelSumAt, rowsInBin, binIdx, flipProb, pyTrunc, List.range_succ])

/-- Claim C7: `transform` is total over `[0, 1)` — for every fitted model
(the mapping table has `n_bins + 1` rows) and probability `0 ≤ p < 1`, the
segment id `int((p + step/2)/step)` lies in `0 .. n_bins`, the merge always
finds a mapping row, and `transform` returns an integer (no `NaN` lookup,
hence no raise). -/
theorem claim_c7_transform_total_on_unit_range (nBins : ℕ)
    (mapping : List (ℚ × ℚ)) (p : ℚ) (hnb : 1 ≤ nBins)
    (hm : mapping.length = nBins + 1) (hp0 : 0 ≤ p) (hp1 : p < 1) :
    (transformOne nBins mapping p).isSome = true ∧
    0 ≤ transformBin nBins p ∧ (transformBin nBins p).toNat ≤ nBins := by
  refine ⟨?_, transformBin_nonneg hnb hp0, ?_⟩
  · rw [transformOne_eq_formula hnb hm hp0 hp1]
    rfl
  · have := transformBin_toNat_lt hnb hp0 hp1
    omega

/-- Witness for C7: `n_bins = 2`, a three-row mapping table, `p = 1/3`. -/
theorem claim_c7_witness :
    (transformOne 2 [(1, 2), (3, 4), (5, 6)] (1/3)).isSome = true ∧
    0 ≤ transformBin 2 (1/3) ∧ (transformBin 2 (1/3)).toNat ≤ 2 :=
  claim_c7_transform_total_on_unit_range 2 [(1, 2), (3, 4), (5, 6)] (1/3)
    (by norm_num) (by norm_num) (by norm_num) (by norm_num)

/-- Claim C8: on a fitted model and probabilities in `[0, 1)`, `transform`
maps each `p` to `round(slope * p + intercept)` where `(slope, intercept)`
is the mapping row at index `⌊(p + step/2) / step⌋` (the `+step/2` centering
offset that the binning step of `fit` does not use), and a vector input
yields a vector of the same length and order. -/
theorem claim_c8_transform_per_element_formula (nBins : ℕ)
    (mapping : List (ℚ × ℚ)) (xs : List ℚ) (hnb : 1 ≤ nBins)
    (hm : mapping.length = nBins + 1) (hxs : ∀ p ∈ xs, 0 ≤ p ∧ p < 1) :
    transformList nBins mapping xs = xs.map (fun p =>
      some (pyRound
        ((mapping.getD (⌊(p + (1 / (nBins : ℚ)) / 2) / (1 / (nBins : ℚ))⌋).toNat
            (0, 0)).1 * p +
         (mapping.getD (⌊(p + (1 / (nBins : ℚ)) / 2) / (1 / (nBins : ℚ))⌋).toNat
            (0, 0)).2))) := by
  unfold transformList
  apply List.map_congr_left
  intro p hp
  exact transformOne_eq_formula hnb hm (hxs p hp).1 (hxs p hp).2

/-- Witness for C8: `n_bins = 1`, two mapping rows, inputs `0` and `1/2`. -/
theorem claim_c8_witness :
    transformList 1 [(0, 1), (2, 3)] [0, 1/2] = ([0, 1/2] : List ℚ).map (fun p =>
      some (pyRound
        (((([(0, 1), (2, 3)] : List (ℚ × ℚ))).getD
            (⌊(p + (1 / ((1 : ℕ) : ℚ)) / 2) / (1 / ((1 : ℕ) : ℚ))⌋).toNat
            (0, 0)).1 * p +
         ((([(0, 1), (2, 3)] : List (ℚ × ℚ))).getD
            (⌊(p + (1 / ((1 : ℕ) : ℚ)) / 2) / (1 / ((1 : ℕ) : ℚ))⌋).toNat
            (0, 0)).2))) :=
  claim_c8_transform_per_element_formula 1 [(0, 1), (2, 3)] [0, 1/2]
    (by norm_num) (by norm_num)
    (by
      intro p hp
      simp only [List.mem_cons, List.not_mem_nil, or_false] at hp
      rcases hp with rfl | rfl <;> norm_num)

/-- Claim C5 (amended): the per-bin score computed by `fit` is the
truncation toward zero (Python `int()`), not round-to-nearest, of
`standard_score + pdo * log2(adjusted_odds / standard_odds)`, applied to
the adjusted odds of each bin in final order. -/
theorem claim_c5_amended_score_is_truncation (ss so pdo : ℚ) (nBins : ℕ)
    (badFlag : Bool) (xs : List ℚ) (ys : List ℕ) (l : List ℚ)
    (h : finalAdjusted nBins badFlag xs ys = Except.ok l) :
    scoresPipeline ss so pdo nBins badFlag xs ys =
      Except.ok (l.map (fun (q : ℚ) =>
        pyTruncR ((ss : ℝ) + (pdo : ℝ) * Real.logb 2 ((q : ℝ) / (so : ℝ))))) := by
  simp only [scoresPipeline]
  rw [h]
  rfl

/-- Counterexample to claim C5: with `standard_score = 0`,
`standard_odds = 1`, `pdo = 1` and a fit whose first bin has adjusted odds
`3/2`, the code's score is `int(log2(3/2)) = 0` while
`round(0 + 1 * log2((3/2)/1)) = 1` (`log2(3/2) ≈ 0.585 ≥ 1/2`): the code
truncates instead of rounding to the nearest integer. -/
theorem claim_c5_counterexample :
    scoresPipeline 0 1 1 2 false [1/4, 1/4, 1/4, 1/4, 1/4, 3/4, 3/4, 3/4]
        [1, 1, 1, 0, 0, 1, 1, 0] = Except.ok [0, 1] ∧
    round ((0 : ℝ) + (1 : ℝ) * Real.logb 2 ((3/2 : ℝ) / (1 : ℝ))) = 1 := by
  constructor
  · have h1 : finalAdjusted 2 false [1/4, 1/4, 1/4, 1/4, 1/4, 3/4, 3/4, 3/4]
        [1, 1, 1, 0, 0, 1, 1, 0] = Except.ok [3/2, 2] := by
      norm_num [finalAdjusted, goodsList, badsList, hitsAt, labelSumAt,
        rowsInBin, binIdx, flipProb, pyTrunc, List.range_succ, adjustOdds,
        initialAdjustedOdds, nonzeroOdds, minOddsIndex, minNonzeroOdds,
        maxOddsIndex, pandasMax, firstIdx, afterEdgeRepairs, highRepair,
        interiorRepair, lowRepair, Except.map]
    have e1 : scoreOfOdds 0 1 1 (3/2) = 0 := by
      unfold scoreOfOdds pyTruncR
      push_cast
      norm_num
      rw [if_pos logb_three_halves_nonneg, Int.floor_eq_zero_iff]
      exact Set.mem_Ico.mpr ⟨logb_three_halves_nonneg, logb_three_halves_lt_one⟩
    have e2 : scoreOfOdds 0 1 1 2 = 1 := by
      unfold scoreOfOdds pyTruncR
      push_cast
      norm_num
    simp only [scoresPipeline]
    rw [h1]
    simp only [Except.map, List.map]
    rw [e1, e2]
  · have e : (0 : ℝ) + (1 : ℝ) * Real.logb 2 ((3/2 : ℝ) / (1 : ℝ)) =
        Real.logb 2 (3/2) := by norm_num
    rw [e, round_eq, Int.floor_eq_iff]
    constructor
    · push_cast
      have := half_le_logb_three_halves
      linarith
    · push_cast
      have := logb_three_halves_lt_one
      linarith

/-- Witness for the amended C5: the same fit; its scores are exactly the
truncated formula mapped over the adjusted odds `3/2, 2`. -/
theorem claim_c5_witness :
    scoresPipeline 0 1 1 2 false [1/4, 1/4, 1/4, 1/4, 1/4, 3/4, 3/4, 3/4]
        [1, 1, 1, 0, 0, 1, 1, 0] =
      Except.ok (([3/2, 2] : List ℚ).map (fun (q : ℚ) =>
        pyTruncR (((0 : ℚ) : ℝ) + ((1 : ℚ) : ℝ) *
          Real.logb 2 ((q : ℝ) / ((1 : ℚ) : ℝ))))) :=
  claim_c5_amended_score_is_truncation 0 1 1 2 false
    [1/4, 1/4, 1/4, 1/4, 1/4, 3/4, 3/4, 3/4] [1, 1, 1, 0, 0, 1, 1, 0]
    [3/2, 2]
    (by norm_num [finalAdjusted, goodsList, badsList, hitsAt, labelSumAt,
      rowsInBin, binIdx, flipProb, pyTrunc, List.range_succ, adjustOdds,
      initialAdjustedOdds, nonzeroOdds, minOddsIndex, minNonzeroOdds,
      maxOddsIndex, pandasMax, firstIdx, afterEdgeRepairs, highRepair,
      interiorRepair, lowRepair, Except.map])

/-- Claim C6 (amended): the per-bin scores of `fit`, in ascending final
`prob_l` order, are monotonically non-decreasing provided the adjusted-odds
column in final order is itself positive and non-decreasing (with
`standard_odds > 0` and `pdo ≥ 0`); the code does not enforce this
precondition, so monotone scores are only guaranteed for monotone odds. -/
theorem claim_c6_amended_monotone_given_sorted_odds (ss so pdo : ℚ)
    (nBins : ℕ) (badFlag : Bool) (xs : List ℚ) (ys : List ℕ) (l : List ℚ)
    (h : finalAdjusted nBins badFlag xs ys = Except.ok l)
    (hso : 0 < so) (hpdo : 0 ≤ pdo) (hpos : ∀ q ∈ l, 0 < q)
    (hsort : l.Pairwise (· ≤ ·)) :
    scoresPipeline ss so pdo nBins badFlag xs ys =
      Except.ok (l.map (scoreOfOdds ss so pdo)) ∧
    (l.map (scoreOfOdds ss so pdo)).Pairwise (· ≤ ·) := by
  constructor
  · simp only [scoresPipeline]
    rw [h]
    rfl
  · rw [List.pairwise_map]
    exact List.Pairwise.imp_of_mem
      (fun ha hb hr => scoreOfOdds_mono hso hpdo (hpos _ ha) hr) hsort

set_option maxHeartbeats 2000000 in
/-- Counterexample to claim C6: a valid fit (`n_bins = 3`,
`standard_score = 10`, `standard_odds = 1`, `pdo = 1`, `bad_flag = False`)
whose bins have raw odds `2, 8, 4` (all finite and nonzero, so `adjust`
keeps them) produces scores `11, 13, 12` in ascending `prob_l` order —
not monotonically non-decreasing. -/
theorem claim_c6_counterexample :
    scoresPipeline 10 1 1 3 false
        [1/6, 1/6, 1/6, 1/2, 1/2, 1/2, 1/2, 1/2, 1/2, 1/2, 1/2, 1/2,
          5/6, 5/6, 5/6, 5/6, 5/6]
        [1, 1, 0, 1, 1, 1, 1, 1, 1, 1, 1, 0, 1, 1, 1, 1, 0] =
      Except.ok [11, 13, 12] ∧
    ¬ ([11, 13, 12] : List ℤ).Pairwise (· ≤ ·) := by
  constructor
  · have h1 : finalAdjusted 3 false
        [1/6, 1/6, 1/6, 1/2, 1/2, 1/2, 1/2, 1/2, 1/2, 1/2, 1/2, 1/2,
          5/6, 5/6, 5/6, 5/6, 5/6]
        [1, 1, 0, 1, 1, 1, 1, 1, 1, 1, 1, 0, 1, 1, 1, 1, 0] =
        Except.ok [2, 8, 4] := by
      norm_num [finalAdjusted, goodsList, badsList, hitsAt, labelSumAt,
        rowsInBin, binIdx, flipProb, pyTrunc, List.range_succ, adjustOdds,
        initialAdjustedOdds, nonzeroOdds, minOddsIndex, minNonzeroOdds,
        maxOddsIndex, pandasMax, firstIdx, afterEdgeRepairs, highRepair,
        interiorRepair, lowRepair, Except.map]
    have e1 : scoreOfOdds 10 1 1 2 = 11 := by
      unfold scoreOfOdds pyTruncR
      push_cast
      norm_num
    have e2 : scoreOfOdds 10 1 1 8 = 13 := by
      unfold scoreOfOdds pyTruncR
      push_cast
      norm_num
      rw [logb_two_eight]
      norm_num
    have e3 : scoreOfOdds 10 1 1 4 = 12 := by
      unfold scoreOfOdds pyTruncR
      push_cast
      norm_num
      rw [logb_two_four]
      norm_num
    simp only [scoresPipeline]
    rw [h1]
    simp only [Except.map, List.map]
    rw [e1, e2, e3]
  · simp [List.pairwise_cons]

/-- Witness for the amended C6: a fit with positive non-decreasing adjusted
odds `1, 2` yields non-decreasing scores. -/
theorem claim_c6_witness :
    (([1, 2] : List ℚ).map (scoreOfOdds 500 (1/100) 20)).Pairwise (· ≤ ·) :=
  (claim_c6_amended_monotone_given_sorted_odds 500 (1/100) 20 2 false
    [1/4, 1/4, 3/4, 3/4, 3/4] [1, 0, 1, 1, 0] [1, 2]
    (by norm_num [finalAdjusted, goodsList, badsList, hitsAt, labelSumAt,
      rowsInBin, binIdx, flipProb, pyTrunc, List.range_succ, adjustOdds,
      initialAdjustedOdds, nonzeroOdds, minOddsIndex, minNonzeroOdds,
      maxOddsIndex, pandasMax, firstIdx, afterEdgeRepairs, highRepair,
      interiorRepair, lowRepair, Except.map])
    (by norm_num) (by norm_num)
    (by
      intro q hq
      simp only [List.mem_cons, List.not_mem_nil, or_false] at hq
      rcases hq with rfl | rfl <;> norm_num)
    (by norm_num [List.pairwise_cons])).2
